import Mathlib

/-!
Verification of the pushpop resumable-transfer engine against its
natural-language specification.

The definitions below are a shallow embedding of the Go sources:

- the receiver download engine of cmd/pop/tui.go (message handlers of
  downloadModel.Update and the commands they trigger);
- the earlier non-TUI receiver of cmd/pop/main.go, in particular its
  range-downgrade branch;
- the pre-download file reconciliation of cmd/pop/main.go;
- the remote digest fetch and validation of generateFetchBlake3Cmd;
- the sender-side single-flight hash cache getBlake3 of cmd/push/main.go,
  modelled as a labelled transition system whose atomic steps are the
  critical sections of the Go code (each region executed under hashMu);
- the hashing functions computeBlake3 (cmd/push/main.go) and
  pkg/blake CalcBlake3, modelled over explicit read-event traces.

Byte strings are modelled as List Nat, text as List Char.  The BLAKE3
function itself is an external library (zeebo/blake3); since only equality
of digests matters to the claims, a digest is represented by the exact
sequence of bytes fed to the hasher (an injective stand-in).  File-system
state is restricted to the two files the engine touches: the partial file
and the final file, each an optional byte content.
-/

namespace PushPop

/-! ## Text helpers: strings.TrimSpace and strings.ToLower, ASCII fragment -/

/-- Whitespace predicate used by strings.TrimSpace, restricted to the ASCII
white-space characters (the digests and answers handled here are ASCII). -/
def goIsSpace (c : Char) : Bool :=
  c = ' ' || c = '\t' || c = '\n' || c = '\x0B' || c = '\x0C' || c = '\r'

/-- Model of strings.TrimSpace on a character list: drop white space from
both ends. -/
def trimSpace (s : List Char) : List Char :=
  ((s.dropWhile goIsSpace).reverse.dropWhile goIsSpace).reverse

/-- ASCII lower-casing of one character, the fragment of strings.ToLower
relevant to the y/yes answers. -/
def toLowerAscii (c : Char) : Char :=
  if 'A' ≤ c && c ≤ 'Z' then Char.ofNat (c.toNat + 32) else c

/-- Hexadecimal-digit predicate; the Go code never applies such a test to
the received digest, the definition is used to state that fact. -/
def isHexDigit (c : Char) : Bool :=
  ('0' ≤ c && c ≤ '9') || ('a' ≤ c && c ≤ 'f') || ('A' ≤ c && c ≤ 'F')

/-! ## Remote digest fetch: generateFetchBlake3Cmd (cmd/pop/tui.go) -/

/-- Outcome of one digest fetch, following the message values produced by
generateFetchBlake3Cmd: a pending signal, a fetched hash, or an error. -/
inductive FetchOutcome where
  | pending : FetchOutcome
  | fetched (h : List Char) : FetchOutcome
  | errStatus (code : Nat) : FetchOutcome
  | errLen (n : Nat) : FetchOutcome
deriving DecidableEq

/-- Model of generateFetchBlake3Cmd: status 503 yields the pending message,
any other non-200 status an error; on 200 the body is read through a
1024-byte LimitReader, trimmed, and accepted iff its length is 64.  No
other validation is performed on the characters. -/
def fetchBlake3Outcome (status : Nat) (body : List Char) : FetchOutcome :=
  if status = 503 then .pending
  else if status ≠ 200 then .errStatus status
  else
    let h := trimSpace (body.take 1024)
    if h.length = 64 then .fetched h else .errLen h.length

/-! ## Pre-download reconciliation (cmd/pop/main.go) -/

/-- Result of the pre-download reconciliation: abort, or proceed with a
resume offset.  The Go code deletes no file during reconciliation, so no
deletion effect appears here. -/
inductive RecOutcome where
  | abort : RecOutcome
  | proceed (offset : Nat) : RecOutcome
deriving DecidableEq

/-- Overwrite-confirmation test of cmd/pop/main.go: the answer is trimmed,
lower-cased and compared with y and yes. -/
def answerIsYes (ans : List Char) : Bool :=
  let a := (trimSpace ans).map toLowerAscii
  a = ['y'] || a = ['y', 'e', 's']

/-- Model of the reconciliation of cmd/pop/main.go: when the final file
exists and force is not set, a y/N prompt decides between abort and
proceeding; in every proceeding case the offset is the partial-file size
when a partial file exists and 0 otherwise.  The final file is never
deleted here and no other prompt exists. -/
def reconcile (finalExists partExists : Bool) (partSize : Nat) (force : Bool)
    (ans : List Char) : RecOutcome :=
  if finalExists && !force then
    if answerIsYes ans then .proceed (if partExists then partSize else 0)
    else .abort
  else .proceed (if partExists then partSize else 0)

/-- Resolution demanded by the specification matrix: offset none means
abort, and the two deletion flags record which files are discarded. -/
structure SpecResolution where
  offset : Option Nat
  deleteFinal : Bool
  deletePart : Bool
deriving DecidableEq

/-- Modelled from the spec: the TransferReconciler resolution matrix of
section 4.3 in the forced (non-interactive) case.  A force flag selects
overwrite for the present/absent row and discard-both/offset-0 for the
present/present row. -/
def specReconcileForced (finalExists partExists : Bool) (partSize : Nat) :
    SpecResolution :=
  match finalExists, partExists with
  | false, false => ⟨some 0, false, false⟩
  | false, true  => ⟨some partSize, false, false⟩
  | true,  false => ⟨some 0, true, false⟩
  | true,  true  => ⟨some 0, true, true⟩

/-! ## Receiver download engine (cmd/pop/tui.go) -/

/-- Terminal causes of the download session, one per error construction
site of downloadModel.Update; the mismatch cause carries both digests as
the formatted message does. -/
inductive ErrCause where
  | aborted : ErrCause
  | renameErr (e : Nat) : ErrCause
  | fetchErr (e : Nat) : ErrCause
  | mismatch (expected got : List Nat) : ErrCause
  | computeErr (e : Nat) : ErrCause
deriving DecidableEq

/-- Projection of the downloadModel fields acted on by the claims.  The
two open flags track whether the response body and the verification file
handle are open. -/
structure EngineM where
  downloadedBytes : Nat
  totalBytes : Int
  bodyOpen : Bool
  blake3FileOpen : Bool
  done : Bool
  verifying : Bool
  err : Option ErrCause
deriving DecidableEq

/-- File-system state touched by the engine: the partial file and the
final file, each an optional byte content. -/
structure FS where
  part : Option (List Nat)
  final : Option (List Nat)
deriving DecidableEq

/-- Engine state built by newDownloadModel for a given resume offset. -/
def initEngine (offset : Nat) : EngineM :=
  { downloadedBytes := offset, totalBytes := 0, bodyOpen := false,
    blake3FileOpen := false, done := false, verifying := false, err := none }

/-- Handler of the ctrl+c / q key message: the error is set to the abort
cause and the program quits.  No field other than err is touched; in
particular neither open handle is closed. -/
def handleCancel (m : EngineM) : EngineM :=
  { m with err := some .aborted }

/-- Handler of requestURLGetBodyMsg: the body is retained open and the
total size becomes the content length, increased by the already downloaded
bytes only when resuming and the status is 206 partial content. -/
def handleGetBody (m : EngineM) (status : Nat) (contentLength : Int) : EngineM :=
  { m with bodyOpen := true,
           totalBytes :=
             if 0 < m.downloadedBytes ∧ status = 206 then
               contentLength + (m.downloadedBytes : Int)
             else contentLength }

/-- Handler of requestURLReceivedMsg for one received chunk:
createOrOpenPartFile opens the partial file in append mode when it exists
and creates it otherwise, so the chunk is appended to the current partial
content, and the downloaded counter advances. -/
def writeChunk (m : EngineM) (fs : FS) (c : List Nat) : EngineM × FS :=
  ({ m with downloadedBytes := m.downloadedBytes + c.length },
   { fs with part := some (fs.part.getD [] ++ c) })

/-- Handler of requestURLDoneMsg: the body is closed and the done flag set
before the rename command is issued. -/
def handleStreamEnd (m : EngineM) : EngineM :=
  { m with bodyOpen := false, done := true }

/-- Error number standing for the rename failure when the partial file
does not exist. -/
def enoent : Nat := 2

/-- Model of os.Rename of the partial file onto the final name: it
succeeds exactly when the partial file exists, replacing any final file,
and fails with enoent otherwise. -/
def renamePart (fs : FS) : FS × Option Nat :=
  match fs.part with
  | some c => ({ part := none, final := some c }, none)
  | none => (fs, some enoent)

/-- Sequential streaming of the body: generateReadChunkCmd delivers one
chunk at a time and each is handled by writeChunk; the trace lists the
non-empty reads in order, ended by end of stream. -/
def streamAll (m : EngineM) (fs : FS) (chunks : List (List Nat)) : EngineM × FS :=
  chunks.foldl (fun p c => writeChunk p.1 p.2 c) (m, fs)

/-- Download phase of the engine run through the rename step: the response
arrives, the chunks are streamed, the stream ends, and the partial file is
renamed; a rename failure becomes the terminal rename cause. -/
def runToRename (m0 : EngineM) (fs0 : FS) (status : Nat) (contentLength : Int)
    (chunks : List (List Nat)) : EngineM × FS :=
  let m1 := handleGetBody m0 status contentLength
  let p2 := streamAll m1 fs0 chunks
  let m3 := handleStreamEnd p2.1
  let q := renamePart p2.2
  match q.2 with
  | some e => ({ m3 with err := some (.renameErr e) }, q.1)
  | none => (m3, q.1)

/-- Handler of blake3ComputedMsg: on a computation error the session fails;
otherwise the two digests are compared by exact equality, a mismatch
deletes the final file and fails with a cause carrying the expected and
obtained digests, and a match quits with no error. -/
def handleBlake3Computed (m : EngineM) (fs : FS) (localHash remoteHash : List Nat)
    (e : Option Nat) : EngineM × FS :=
  let m1 := { m with verifying := false }
  match e with
  | some e2 => ({ m1 with err := some (.computeErr e2) }, fs)
  | none =>
    if localHash = remoteHash then (m1, fs)
    else ({ m1 with err := some (.mismatch remoteHash localHash) },
          { fs with final := none })

/-! ## Earlier non-TUI receiver (cmd/pop/main.go, io.Copy variant)

The first cmd/pop/main.go variant handles the server response with three
branches: resume honoured (206, append), range downgrade (200 on a resume,
warn and recreate the partial file from scratch), and fresh download. -/

/-- Result of the non-TUI download: the file system after copy and rename,
and whether the range-downgrade warning was printed. -/
structure CliResult where
  fs : FS
  warned : Bool
deriving DecidableEq

/-- Model of the response handling and rename of the non-TUI receiver:
on a resume answered with 206 the body is appended to the partial file; on
a resume answered with 200 the warning is printed and os.Create truncates
the partial file before the copy; otherwise the partial file is created
fresh.  The rename then moves the partial content to the final name. -/
def cliDownload (offset : Nat) (status : Nat) (startPart : Option (List Nat))
    (body : List Nat) : CliResult :=
  let partAfter :=
    if 0 < offset ∧ status = 206 then some (startPart.getD [] ++ body)
    else some body
  let warned := decide (0 < offset ∧ status = 200)
  let q := renamePart { part := partAfter, final := none }
  ⟨q.1, warned⟩

/-! ## Sender-side hashing over read traces (cmd/push/main.go, pkg/blake) -/

/-- Result of one Read call on the file: the bytes obtained and the error
value returned alongside them (none, end of file, or a failure). -/
inductive IOErr where
  | eof : IOErr
  | fail (e : Nat) : IOErr
deriving DecidableEq

/-- One read event: data possibly accompanied by an error, as Go Read may
return both. -/
structure ReadRes where
  data : List Nat
  err : Option IOErr
deriving DecidableEq

/-- Digest of a byte sequence.  The BLAKE3 library is external to the
repository; only equality of digests matters to the claims, so the digest
is represented by the byte sequence itself (an injective stand-in for the
hex digest of the real hash). -/
def blake3Digest (bs : List Nat) : List Nat := bs

/-- Result of a hash computation as published to the cache: a digest with
nil error, or an error. -/
inductive HRes where
  | ok (digest : List Nat) : HRes
  | fail (e : Nat) : HRes
deriving DecidableEq

/-- Bytes accumulated by the read loop of computeBlake3: each event writes
its data into the hasher, and the loop breaks on the first non-nil error,
whether it is end of file or a real failure. -/
def computeLoopBytes : List ReadRes → List Nat
  | [] => []
  | r :: rest =>
    match r.err with
    | none => r.data ++ computeLoopBytes rest
    | some _ => r.data

/-- Model of computeBlake3 of cmd/push/main.go: an open failure is
returned as an error; otherwise the read loop runs and the digest of the
accumulated bytes is returned with nil error, regardless of whether the
loop ended at end of file or at a read failure. -/
def computeBlake3 (openErr : Option Nat) (reads : List ReadRes) : HRes :=
  match openErr with
  | some e => .fail e
  | none => .ok (blake3Digest (computeLoopBytes reads))

/-- Copy loop of io.Copy as used by CalcBlake3: data is written until end
of file, and a read failure is returned as an error. -/
def copyLoop : List ReadRes → Except Nat (List Nat)
  | [] => .ok []
  | r :: rest =>
    match r.err with
    | none =>
      match copyLoop rest with
      | .ok bs => .ok (r.data ++ bs)
      | .error e => .error e
    | some .eof => .ok r.data
    | some (.fail e) => .error e

/-- Model of CalcBlake3 of pkg/blake: an open failure or a mid-stream read
failure is returned as an error, and otherwise the digest of the full
content is returned. -/
def calcBlake3 (openErr : Option Nat) (reads : List ReadRes) : Except Nat (List Nat) :=
  match openErr with
  | some e => .error e
  | none =>
    match copyLoop reads with
    | .ok bs => .ok (blake3Digest bs)
    | .error e => .error e

/-! ## Single-flight hash cache (getBlake3 of cmd/push/main.go)

The shared state guarded by hashMu is, for one path, the optional cached
result and the presence of a per-path condition variable.  Each caller of
getBlake3 is a thread; its atomic steps are the critical sections of the
Go function: the entry region (cache hit, wait, or install-and-compute),
the publish region (store the result, drop the condition, broadcast), and
the wake-up of a waiter, which can observe only a published result. -/

/-- Thread states of a getBlake3 caller. -/
inductive TState where
  | entry : TState
  | computing : TState
  | waiting : TState
  | done (r : HRes) : TState
deriving DecidableEq

/-- Shared cache state for one path, together with the family of caller
threads and a counter of started hash computations. -/
structure Sys where
  threads : Nat → TState
  cache : Option HRes
  cond : Bool
  computeCount : Nat

/-- Initial system: every thread is about to call getBlake3, nothing is
cached, no condition variable is installed. -/
def sysInit : Sys :=
  { threads := fun _ => .entry, cache := none, cond := false, computeCount := 0 }

/-- Concrete system after thread 0 has installed the condition variable
and started computing; used by concrete executions below. -/
def sysAfterCompute : Sys :=
  { sysInit with threads := Function.update sysInit.threads 0 .computing,
                 cond := true, computeCount := sysInit.computeCount + 1 }

/-- Concrete system after thread 0 has published the result. -/
def sysPublished : Sys :=
  { sysAfterCompute with
      threads := Function.update sysAfterCompute.threads 0 (.done (HRes.ok [1])),
      cache := some (HRes.ok [1]), cond := false }

/-- Concrete system after a later caller, thread 1, has read the cached
result. -/
def sysSecondDone : Sys :=
  { sysPublished with
      threads := Function.update sysPublished.threads 1 (.done (HRes.ok [1])) }

/-- Atomic steps of the getBlake3 callers, with r0 the result the single
hash computation would publish for this path. -/
inductive Step (r0 : HRes) : Sys → Sys → Prop where
  | entryHit (s : Sys) (i : Nat) (r : HRes)
      (ht : s.threads i = .entry) (hc : s.cache = some r) :
      Step r0 s { s with threads := Function.update s.threads i (.done r) }
  | entryWait (s : Sys) (i : Nat)
      (ht : s.threads i = .entry) (hc : s.cache = none) (hw : s.cond = true) :
      Step r0 s { s with threads := Function.update s.threads i .waiting }
  | entryCompute (s : Sys) (i : Nat)
      (ht : s.threads i = .entry) (hc : s.cache = none) (hw : s.cond = false) :
      Step r0 s { s with threads := Function.update s.threads i .computing,
                         cond := true, computeCount := s.computeCount + 1 }
  | publish (s : Sys) (i : Nat)
      (ht : s.threads i = .computing) :
      Step r0 s { s with threads := Function.update s.threads i (.done r0),
                         cache := some r0, cond := false }
  | wake (s : Sys) (i : Nat) (r : HRes)
      (ht : s.threads i = .waiting) (hc : s.cache = some r) :
      Step r0 s { s with threads := Function.update s.threads i (.done r) }

/-- Reachability by the step relation from a given start state. -/
inductive Reach (r0 : HRes) (start : Sys) : Sys → Prop where
  | refl : Reach r0 start start
  | step {s s2 : Sys} : Reach r0 start s → Step r0 s s2 → Reach r0 start s2

/-- Inductive invariant of the single-flight cache: at most one thread is
computing and only while the condition variable is installed; the number
of started computations is 0 before the first install and 1 from then on;
a published result is the unique computation result; and a finished
thread has observed exactly the published result. -/
def Inv (r0 : HRes) (s : Sys) : Prop :=
  (∀ i j, s.threads i = .computing → s.threads j = .computing → i = j) ∧
  (s.cond = false → ∀ i, s.threads i ≠ .computing) ∧
  (s.computeCount = if s.cond || s.cache.isSome then 1 else 0) ∧
  (s.cache.isSome = true → s.cond = false) ∧
  (∀ r, s.cache = some r → r = r0) ∧
  (∀ i r, s.threads i = .done r → s.cache = some r0 ∧ r = r0)

/-! ## Endpoint behaviors of the digest route (cmd/push/main.go) -/

/-- Action taken by the entry critical section of getBlake3, as a function
of the shared state: return the cached result, wait on the condition, or
install the condition and start computing. -/
inductive EntryAction where
  | ret (r : HRes) : EntryAction
  | wait : EntryAction
  | startCompute : EntryAction
deriving DecidableEq

/-- Entry decision of getBlake3 transliterated from the Go code: a cache
hit returns at once; otherwise an installed condition variable makes the
caller wait; otherwise the caller installs it and computes. -/
def getBlake3EntryAction : Option HRes → Bool → EntryAction
  | some r, _ => .ret r
  | none, true => .wait
  | none, false => .startCompute

/-- Minimal HTTP response: a status code and a body of bytes. -/
structure HttpResponse where
  status : Nat
  body : List Nat
deriving DecidableEq

/-- Body written by http.Error in the failure branch of the digest
handler, the ASCII bytes of the failure message. -/
def digestFailBody : List Nat :=
  [70, 97, 105, 108, 101, 100, 32, 116, 111, 32, 99, 111, 109, 112,
   117, 116, 101, 32, 104, 97, 115, 104]

/-- Response written by the blake3 endpoint handler once getBlake3 has
returned: an error yields status 500 with the failure message, a digest
yields status 200 with the digest as body. -/
def digestHandlerResponse : HRes → HttpResponse
  | .ok h => ⟨200, h⟩
  | .fail _ => ⟨500, digestFailBody⟩

/-- Modelled from the spec: the digest endpoint of section 4.2, which
answers 503 with an empty body while the computation is pending, 200 with
the digest when ready, and 500 on a cache error. -/
inductive SpecDigestView where
  | pending : SpecDigestView
  | ready (h : List Nat) : SpecDigestView
  | failed : SpecDigestView
deriving DecidableEq

/-- Modelled from the spec: response of the digest endpoint per cache
view. -/
def specDigestResponse : SpecDigestView → HttpResponse
  | .pending => ⟨503, []⟩
  | .ready h => ⟨200, h⟩
  | .failed => ⟨500, []⟩

/-! ## Invariant proofs for the single-flight cache -/

/-- Initial states satisfy the single-flight invariant. -/
theorem inv_init (r0 : HRes) : Inv r0 sysInit := by
  refine ⟨?_, ?_, rfl, ?_, ?_, ?_⟩
  · intro a b ha _; exact TState.noConfusion ha
  · intro _ a ha; exact TState.noConfusion ha
  · intro _; rfl
  · intro r hr; exact Option.noConfusion hr
  · intro a r ha; exact TState.noConfusion ha

/-- Every atomic step of getBlake3 preserves the single-flight
invariant. -/
theorem inv_step {r0 : HRes} {s s2 : Sys} (h : Inv r0 s) (hs : Step r0 s s2) :
    Inv r0 s2 := by
  obtain ⟨h1, h2, h3, h4, h5, h6⟩ := h
  cases hs with
  | entryHit i r ht hc =>
    unfold Inv
    dsimp only
    refine ⟨?_, ?_, h3, h4, h5, ?_⟩
    · intro a b ha hb
      by_cases hai : a = i
      · subst hai; rw [Function.update_same] at ha; exact TState.noConfusion ha
      · rw [Function.update_noteq hai] at ha
        by_cases hbi : b = i
        · subst hbi; rw [Function.update_same] at hb; exact TState.noConfusion hb
        · rw [Function.update_noteq hbi] at hb; exact h1 a b ha hb
    · intro hcf a
      by_cases hai : a = i
      · subst hai; rw [Function.update_same]; exact fun hx => TState.noConfusion hx
      · rw [Function.update_noteq hai]; exact h2 hcf a
    · intro a r2 ha
      by_cases hai : a = i
      · subst hai; rw [Function.update_same] at ha
        injection ha with hr
        subst hr
        have hrr := h5 r hc
        subst hrr
        exact ⟨hc, rfl⟩
      · rw [Function.update_noteq hai] at ha; exact h6 a r2 ha
  | entryWait i ht hc hw =>
    unfold Inv
    dsimp only
    refine ⟨?_, ?_, h3, h4, h5, ?_⟩
    · intro a b ha hb
      by_cases hai : a = i
      · subst hai; rw [Function.update_same] at ha; exact TState.noConfusion ha
      · rw [Function.update_noteq hai] at ha
        by_cases hbi : b = i
        · subst hbi; rw [Function.update_same] at hb; exact TState.noConfusion hb
        · rw [Function.update_noteq hbi] at hb; exact h1 a b ha hb
    · intro hcf a
      by_cases hai : a = i
      · subst hai; rw [Function.update_same]; exact fun hx => TState.noConfusion hx
      · rw [Function.update_noteq hai]; exact h2 hcf a
    · intro a r2 ha
      by_cases hai : a = i
      · subst hai; rw [Function.update_same] at ha; exact TState.noConfusion ha
      · rw [Function.update_noteq hai] at ha; exact h6 a r2 ha
  | entryCompute i ht hc hw =>
    unfold Inv
    dsimp only
    have hone : ∀ a, Function.update s.threads i TState.computing a =
        TState.computing → a = i := by
      intro a ha
      by_cases hai : a = i
      · exact hai
      · rw [Function.update_noteq hai] at ha
        exact absurd ha (h2 hw a)
    refine ⟨?_, ?_, ?_, ?_, ?_, ?_⟩
    · intro a b ha hb; rw [hone a ha, hone b hb]
    · intro hcf; exact Bool.noConfusion hcf
    · simp only [hc]
      simp [h3, hw, hc]
    · intro hx; rw [hc] at hx; simp at hx
    · intro r hr; rw [hc] at hr; exact Option.noConfusion hr
    · intro a r2 ha
      by_cases hai : a = i
      · subst hai; rw [Function.update_same] at ha; exact TState.noConfusion ha
      · rw [Function.update_noteq hai] at ha
        obtain ⟨hcc, _⟩ := h6 a r2 ha
        rw [hc] at hcc
        exact Option.noConfusion hcc
  | publish i ht =>
    unfold Inv
    dsimp only
    have hcond : s.cond = true := by
      cases hcv : s.cond
      · exact absurd ht (h2 hcv i)
      · rfl
    have hcn : s.cache = none := by
      cases hx : s.cache with
      | none => rfl
      | some r =>
        have hcf := h4 (by rw [hx]; rfl)
        rw [hcond] at hcf
        exact Bool.noConfusion hcf
    have hnc : ∀ a, Function.update s.threads i (TState.done r0) a ≠
        TState.computing := by
      intro a ha
      by_cases hai : a = i
      · subst hai; rw [Function.update_same] at ha; exact TState.noConfusion ha
      · rw [Function.update_noteq hai] at ha
        exact hai (h1 a i ha ht)
    refine ⟨?_, ?_, ?_, ?_, ?_, ?_⟩
    · intro a b ha _; exact absurd ha (hnc a)
    · intro _ a; exact hnc a
    · simp [h3, hcond]
    · intro _; rfl
    · intro r hr; injection hr with hr2; exact hr2.symm
    · intro a r2 ha
      by_cases hai : a = i
      · subst hai; rw [Function.update_same] at ha
        injection ha with hr
        exact ⟨rfl, hr.symm⟩
      · rw [Function.update_noteq hai] at ha
        obtain ⟨hcc, _⟩ := h6 a r2 ha
        rw [hcn] at hcc
        exact Option.noConfusion hcc
  | wake i r ht hc =>
    unfold Inv
    dsimp only
    refine ⟨?_, ?_, h3, h4, h5, ?_⟩
    · intro a b ha hb
      by_cases hai : a = i
      · subst hai; rw [Function.update_same] at ha; exact TState.noConfusion ha
      · rw [Function.update_noteq hai] at ha
        by_cases hbi : b = i
        · subst hbi; rw [Function.update_same] at hb; exact TState.noConfusion hb
        · rw [Function.update_noteq hbi] at hb; exact h1 a b ha hb
    · intro hcf a
      by_cases hai : a = i
      · subst hai; rw [Function.update_same]; exact fun hx => TState.noConfusion hx
      · rw [Function.update_noteq hai]; exact h2 hcf a
    · intro a r2 ha
      by_cases hai : a = i
      · subst hai; rw [Function.update_same] at ha
        injection ha with hr
        subst hr
        have hrr := h5 r hc
        subst hrr
        exact ⟨hc, rfl⟩
      · rw [Function.update_noteq hai] at ha; exact h6 a r2 ha

/-- Every state reachable from the initial system satisfies the
single-flight invariant. -/
theorem inv_reach {r0 : HRes} {s : Sys} (h : Reach r0 sysInit s) : Inv r0 s := by
  induction h with
  | refl => exact inv_init r0
  | step _ hs ih => exact inv_step ih hs

/-- Reachability composes. -/
theorem reach_trans {r0 : HRes} {a b c : Sys}
    (h1 : Reach r0 a b) (h2 : Reach r0 b c) : Reach r0 a c := by
  induction h2 with
  | refl => exact h1
  | step _ hs ih => exact Reach.step ih hs

/-- Once a result is cached, no single step can change it or start a new
computation: the publish and install steps are disabled by the
invariant. -/
theorem step_preserves_published {r0 : HRes} {s s2 : Sys} {r : HRes}
    (hinv : Inv r0 s) (hc : s.cache = some r) (hs : Step r0 s s2) :
    s2.cache = some r ∧ s2.computeCount = s.computeCount := by
  obtain ⟨h1, h2, h3, h4, h5, h6⟩ := hinv
  cases hs with
  | entryHit i r2 ht hc2 => exact ⟨hc, rfl⟩
  | entryWait i ht hc2 hw => rw [hc] at hc2; exact Option.noConfusion hc2
  | entryCompute i ht hc2 hw => rw [hc] at hc2; exact Option.noConfusion hc2
  | publish i ht =>
    exfalso
    have hcond : s.cond = false := h4 (by rw [hc]; rfl)
    exact h2 hcond i ht
  | wake i r2 ht hc2 => exact ⟨hc, rfl⟩

/-- Concrete execution: from the initial system, thread 0 starts the
computation and publishes its result. -/
theorem reach_sysPublished : Reach (HRes.ok [1]) sysInit sysPublished :=
  Reach.step
    (Reach.step Reach.refl (Step.entryCompute sysInit 0 rfl rfl rfl) :
      Reach (HRes.ok [1]) sysInit sysAfterCompute)
    (Step.publish sysAfterCompute 0 rfl)

/-- Concrete execution: from the published system, thread 1 performs a
cache hit. -/
theorem reach_sysSecondDone : Reach (HRes.ok [1]) sysPublished sysSecondDone :=
  Reach.step Reach.refl (Step.entryHit sysPublished 1 (HRes.ok [1]) rfl rfl)

/-! ## Helper lemmas -/

/-- Streaming helper: once the partial file exists it keeps existing
through the rest of the chunk stream. -/
theorem streamAll_part_isSome (chunks : List (List Nat)) :
    ∀ (m : EngineM) (fs : FS), fs.part.isSome = true →
      ((streamAll m fs chunks).2.part).isSome = true := by
  induction chunks with
  | nil => intro m fs h; exact h
  | cons c cs ih =>
    intro m fs _
    exact ih { m with downloadedBytes := m.downloadedBytes + c.length }
      { fs with part := some (fs.part.getD [] ++ c) } rfl

/-! ## Claim theorems -/

/-- Claim C1 (status: code_bug).  On a resume attempt (offset 1, partial
content [1]) answered by status 200 because the server ignored Range, the
current download engine of cmd/pop/tui.go appends the full body [2, 3] to
the existing partial file and renames the corrupted concatenation
[1, 2, 3] to the final name, instead of restarting at offset 0; the
earlier non-TUI receiver of cmd/pop/main.go restarts at offset 0 with a
warning and produces the correct final content [2, 3], which is also the
behavior the repository README documents. -/
theorem rangeDowngradeCorruption :
    ((runToRename (initEngine 1) ⟨some [1], none⟩ 200 2 [[2], [3]]).2.final =
       some [1, 2, 3]) ∧
    (some [1, 2, 3] ≠ (some [2, 3] : Option (List Nat))) ∧
    ((cliDownload 1 200 (some [1]) [2, 3]).fs.final = some [2, 3]) ∧
    ((cliDownload 1 200 (some [1]) [2, 3]).warned = true) := by
  decide

/-- Claim C2 counterexample (status: corrected).  While the hash
computation is in flight (no cached result, condition variable installed)
the entry section of getBlake3 makes the request-serving thread wait on
the condition instead of returning, and the blake3 endpoint handler only
ever answers 200 or 500 after getBlake3 returns: the immediate 503
pending response demanded by the claim does not exist in the code,
although the spec-modelled endpoint produces it. -/
theorem digestPendingBlocks_counterexample :
    getBlake3EntryAction none true = EntryAction.wait ∧
    (digestHandlerResponse (HRes.ok [1])).status = 200 ∧
    (digestHandlerResponse (HRes.fail 0)).status = 500 ∧
    specDigestResponse SpecDigestView.pending = ⟨503, []⟩ ∧
    EntryAction.wait ≠ EntryAction.ret (HRes.ok [1]) := by
  decide

/-- Claim C2 (status: corrected, amended).  The blake3 endpoint handler is
synchronous: a request arriving while the computation for the path is in
flight blocks on the per-path condition variable until the result is
published; a cached result is returned at once; the first request starts
the computation; and the response carries status 200 with the digest as
body on success and status 500 with the failure message on error, never
status 503. -/
theorem digestHandlerSynchronous (h : List Nat) (e : Nat) (r : HRes) :
    getBlake3EntryAction none true = EntryAction.wait ∧
    getBlake3EntryAction (some r) true = .ret r ∧
    getBlake3EntryAction (some r) false = .ret r ∧
    getBlake3EntryAction none false = .startCompute ∧
    digestHandlerResponse (.ok h) = ⟨200, h⟩ ∧
    digestHandlerResponse (.fail e) = ⟨500, digestFailBody⟩ ∧
    (digestHandlerResponse r).status ≠ 503 := by
  refine ⟨rfl, rfl, rfl, rfl, rfl, rfl, ?_⟩
  cases r <;> simp [digestHandlerResponse]

/-- Witness for the amended claim C2 at a concrete result: the response
for a ready digest has status 200, not 503. -/
theorem digestHandlerSynchronous_witness :
    (digestHandlerResponse (HRes.ok [1])).status ≠ 503 :=
  (digestHandlerSynchronous [1] 0 (HRes.ok [1])).2.2.2.2.2.2

/-- Claim C4 counterexample (status: corrected).  With both the final and
the partial file present and the force flag set, the reconciliation of
cmd/pop/main.go resumes at the partial-file length (offset 5), whereas
the claim requires the force flag to select discard-both and offset 0 (as
the spec-modelled matrix does); no four-choice prompt and no deletion of
the final file exist in the code. -/
theorem reconcileForcedBothPresent_counterexample :
    reconcile true true 5 true [] = RecOutcome.proceed 5 ∧
    RecOutcome.proceed 5 ≠ RecOutcome.proceed 0 ∧
    specReconcileForced true true 5 = ⟨some 0, true, true⟩ := by
  decide

/-- Claim C4 (status: corrected, amended).  The actual reconciliation:
when the final file is absent or force is set, the download proceeds with
no prompt, resuming at the partial-file length when a partial file exists
and at 0 otherwise; when the final file is present and force is unset,
a single y/N overwrite prompt decides between aborting (no side effect)
and proceeding with that same offset.  The final file is never deleted
during reconciliation and both-present is not treated specially. -/
theorem reconcileActualMatrix (finalExists partExists : Bool) (partSize : Nat)
    (force : Bool) (ans : List Char) :
    (finalExists = false ∨ force = true →
        reconcile finalExists partExists partSize force ans =
          .proceed (if partExists then partSize else 0)) ∧
    (finalExists = true → force = false → answerIsYes ans = false →
        reconcile finalExists partExists partSize force ans = .abort) ∧
    (finalExists = true → force = false → answerIsYes ans = true →
        reconcile finalExists partExists partSize force ans =
          .proceed (if partExists then partSize else 0)) := by
  refine ⟨?_, ?_, ?_⟩
  · rintro (h | h) <;> simp [reconcile, h]
  · intro h1 h2 h3; simp [reconcile, h1, h2, h3]
  · intro h1 h2 h3; simp [reconcile, h1, h2, h3]

/-- Witness for the amended claim C4 at concrete inputs: a forced-free run
with only a partial file resumes at its length, a decline answer aborts,
and a y answer on an existing final file proceeds at offset 0. -/
theorem reconcileActualMatrix_witness :
    reconcile false true 7 false ['x'] = RecOutcome.proceed 7 ∧
    reconcile true true 7 false [] = RecOutcome.abort ∧
    reconcile true false 7 false ['y'] = RecOutcome.proceed 0 := by
  refine ⟨?_, ?_, ?_⟩
  · have h := (reconcileActualMatrix false true 7 false ['x']).1 (Or.inl rfl)
    simpa using h
  · exact (reconcileActualMatrix true true 7 false []).2.1 rfl rfl (by decide)
  · have h := (reconcileActualMatrix true false 7 false ['y']).2.2 rfl rfl (by decide)
    simpa using h

/-- Claim C5 counterexample (status: corrected).  A network value of 64
letters z, none of which is a hexadecimal digit, is accepted by the digest
fetch and would be handed to the comparison: only the length is
validated. -/
theorem fetchAcceptsNonHex_counterexample :
    fetchBlake3Outcome 200 (List.replicate 64 'z') =
      FetchOutcome.fetched (List.replicate 64 'z') ∧
    isHexDigit 'z' = false := by
  decide

/-- Claim C5 (status: corrected, amended).  The receiver accepts a digest
value from the network iff the body, truncated to its first 1024 bytes
and trimmed of surrounding white space, has exactly 64 characters; the
characters themselves are not validated as hexadecimal.  Any other length
is rejected as a terminal error carrying the offending length, never
truncated or padded to 64. -/
theorem fetchLengthOnlyValidation (body : List Char) :
    ((trimSpace (body.take 1024)).length = 64 →
        fetchBlake3Outcome 200 body = .fetched (trimSpace (body.take 1024))) ∧
    ((trimSpace (body.take 1024)).length ≠ 64 →
        fetchBlake3Outcome 200 body =
          .errLen (trimSpace (body.take 1024)).length) := by
  constructor
  · intro h; simp [fetchBlake3Outcome, h]
  · intro h; simp [fetchBlake3Outcome, h]

/-- Witness for the amended claim C5: a 64-character body is accepted as
is, and a 2-character body is rejected with its length. -/
theorem fetchLengthOnlyValidation_witness :
    fetchBlake3Outcome 200 (List.replicate 64 'a') =
      FetchOutcome.fetched (trimSpace ((List.replicate 64 'a').take 1024)) ∧
    fetchBlake3Outcome 200 ['a', 'b'] =
      FetchOutcome.errLen (trimSpace ((['a', 'b'] : List Char).take 1024)).length :=
  ⟨(fetchLengthOnlyValidation (List.replicate 64 'a')).1 (by decide),
   (fetchLengthOnlyValidation ['a', 'b']).2 (by decide)⟩

/-- Claim C6 (status: confirmed).  The blake3ComputedMsg handler compares
the computed and remote digests by exact equality: on a match the session
ends with no error and the file system untouched (Done); on a mismatch
the final file is removed and the session ends failed with a cause
carrying the expected (remote) and obtained (local) digests. -/
theorem verifyExactEqualityMismatchCleanup (m : EngineM) (fs : FS)
    (l r : List Nat) :
    (l = r →
        handleBlake3Computed m fs l r none = ({ m with verifying := false }, fs)) ∧
    (l ≠ r →
        (handleBlake3Computed m fs l r none).1.err = some (.mismatch r l) ∧
        (handleBlake3Computed m fs l r none).2.final = none) := by
  constructor
  · intro h; simp [handleBlake3Computed, h]
  · intro h; simp [handleBlake3Computed, h]

/-- Witness for claim C6 at concrete digests: equal digests end clean,
different digests delete the final file and record both digests. -/
theorem verifyExactEqualityMismatchCleanup_witness :
    handleBlake3Computed (initEngine 0) ⟨none, some [9]⟩ [1] [1] none =
      ({ initEngine 0 with verifying := false }, (⟨none, some [9]⟩ : FS)) ∧
    ((handleBlake3Computed (initEngine 0) ⟨none, some [9]⟩ [1] [2] none).1.err =
        some (.mismatch [2] [1]) ∧
     (handleBlake3Computed (initEngine 0) ⟨none, some [9]⟩ [1] [2] none).2.final =
        none) :=
  ⟨(verifyExactEqualityMismatchCleanup (initEngine 0) ⟨none, some [9]⟩ [1] [1]).1 rfl,
   (verifyExactEqualityMismatchCleanup (initEngine 0) ⟨none, some [9]⟩ [1] [2]).2
     (by decide)⟩

/-- Claim C7 (status: code_bug).  The read loop of computeBlake3 in
cmd/push/main.go breaks on any non-nil read error without distinguishing
a failure from end of file: a file read that yields bytes [1, 2] and then
fails with error 5 produces the digest of the two partial bytes with nil
error instead of publishing the error.  The open-failure branch does
propagate its error, the sibling CalcBlake3 of pkg/blake propagates the
mid-stream error, and a normal end of file yields the full digest. -/
theorem midStreamReadErrorSwallowed :
    computeBlake3 none [⟨[1, 2], some (.fail 5)⟩] =
      HRes.ok (blake3Digest [1, 2]) ∧
    computeBlake3 (some 7) [] = HRes.fail 7 ∧
    calcBlake3 none [⟨[1, 2], some (.fail 5)⟩] = Except.error 5 ∧
    computeBlake3 none [⟨[1, 2], none⟩, ⟨[], some .eof⟩] =
      HRes.ok (blake3Digest [1, 2]) :=
  ⟨rfl, rfl, rfl, rfl⟩

/-- Claim C9 counterexample (status: corrected).  In a state where both
the response body and the verification file handle are open, the cancel
key handler sets the abort cause and quits while leaving both handles
open: it closes nothing. -/
theorem cancelLeavesHandles_counterexample :
    handleCancel ⟨0, 0, true, true, false, false, none⟩ =
      ⟨0, 0, true, true, false, false, some .aborted⟩ := by
  decide

/-- Claim C9 (status: corrected, amended).  The ctrl+c / q cancel event is
accepted in every engine state and terminates the session as failed with
the abort cause, but the handler does not close the open response body or
the open hash-file handle: every field other than the error is left
unchanged, and the descriptors are released only at process exit. -/
theorem cancelAcceptedNoClose (m : EngineM) :
    (handleCancel m).err = some ErrCause.aborted ∧
    (handleCancel m).bodyOpen = m.bodyOpen ∧
    (handleCancel m).blake3FileOpen = m.blake3FileOpen ∧
    (handleCancel m).done = m.done ∧
    (handleCancel m).verifying = m.verifying ∧
    (handleCancel m).downloadedBytes = m.downloadedBytes :=
  ⟨rfl, rfl, rfl, rfl, rfl, rfl⟩

/-- Claim C10 (status: confirmed).  On a fresh download with no partial
file and an empty response body, no chunk message ever arrives, so the
partial file is never created; the end-of-stream rename of the partial
file then fails and the session ends failed with the rename cause, the
final file untouched: a zero-byte file can never complete.  The last
conjunct shows the partial file is created exactly when a first non-empty
chunk is handled. -/
theorem emptyBodyRenameFails (finalInit : Option (List Nat)) (contentLength : Int) :
    (runToRename (initEngine 0) ⟨none, finalInit⟩ 200 contentLength []).1.err =
      some (.renameErr enoent) ∧
    (runToRename (initEngine 0) ⟨none, finalInit⟩ 200 contentLength []).2.part =
      none ∧
    (runToRename (initEngine 0) ⟨none, finalInit⟩ 200 contentLength []).2.final =
      finalInit ∧
    (∀ (c : List Nat) (cs : List (List Nat)) (m : EngineM) (fs : FS),
       ((streamAll m fs (c :: cs)).2.part).isSome = true) := by
  refine ⟨rfl, rfl, rfl, ?_⟩
  intro c cs m fs
  exact streamAll_part_isSome cs _ _ rfl

/-- Claim C3 (status: confirmed).  In every state reachable by any
interleaving of any number of concurrent getBlake3 callers for one path,
at most one hash computation has been started, and once any caller has
finished, exactly one computation was performed: the first caller
installs the per-path condition and computes, every other caller waits on
the condition or reads the cached result, and no second computation ever
starts for the path. -/
theorem singleFlightOneComputation (r0 : HRes) (s : Sys)
    (h : Reach r0 sysInit s) :
    s.computeCount ≤ 1 ∧
      ∀ i r, s.threads i = TState.done r → s.computeCount = 1 := by
  obtain ⟨h1, h2, h3, h4, h5, h6⟩ := inv_reach h
  constructor
  · rw [h3]; split <;> omega
  · intro i r hdone
    obtain ⟨hc, _⟩ := h6 i r hdone
    rw [h3, hc]
    simp

/-- Witness for claim C3 on the concrete two-step execution in which
thread 0 computes and publishes: the computation count is exactly 1. -/
theorem singleFlightOneComputation_witness :
    sysPublished.computeCount ≤ 1 ∧ sysPublished.computeCount = 1 :=
  ⟨(singleFlightOneComputation (HRes.ok [1]) sysPublished reach_sysPublished).1,
   (singleFlightOneComputation (HRes.ok [1]) sysPublished reach_sysPublished).2 0
     (HRes.ok [1]) rfl⟩

/-- Claim C8 (status: confirmed).  Once the cache has published a result
for the path, every state reachable afterwards still holds exactly that
result, no further computation is ever started, and every caller that
finishes observes exactly the stored result. -/
theorem cachePublishedImmutable (r0 : HRes) (s s2 : Sys) (r : HRes)
    (h1 : Reach r0 sysInit s) (hc : s.cache = some r) (h2 : Reach r0 s s2) :
    s2.cache = some r ∧ s2.computeCount = s.computeCount ∧
      ∀ i r2, s2.threads i = TState.done r2 → r2 = r := by
  have hr0 : r = r0 := (inv_reach h1).2.2.2.2.1 r hc
  induction h2 with
  | refl =>
    refine ⟨hc, rfl, ?_⟩
    intro i r2 hdone
    obtain ⟨_, hr2⟩ := (inv_reach h1).2.2.2.2.2 i r2 hdone
    rw [hr2, hr0]
  | step hreach hs ih =>
    obtain ⟨hct, hcc, _⟩ := ih
    have hinvt := inv_reach (reach_trans h1 hreach)
    obtain ⟨hc2, hcc2⟩ := step_preserves_published hinvt hct hs
    refine ⟨hc2, by rw [hcc2, hcc], ?_⟩
    intro i r2 hdone
    have hinv2 := inv_reach (reach_trans h1 (Reach.step hreach hs))
    obtain ⟨_, hr2⟩ := hinv2.2.2.2.2.2 i r2 hdone
    rw [hr2, hr0]

/-- Witness for claim C8 on the concrete execution in which thread 1
reads the cache after publication: the cached value, the computation
count and the observed result are unchanged. -/
theorem cachePublishedImmutable_witness :
    sysSecondDone.cache = some (HRes.ok [1]) ∧
    sysSecondDone.computeCount = sysPublished.computeCount ∧
    HRes.ok [1] = HRes.ok [1] :=
  ⟨(cachePublishedImmutable (HRes.ok [1]) sysPublished sysSecondDone
      (HRes.ok [1]) reach_sysPublished rfl reach_sysSecondDone).1,
   (cachePublishedImmutable (HRes.ok [1]) sysPublished sysSecondDone
      (HRes.ok [1]) reach_sysPublished rfl reach_sysSecondDone).2.1,
   (cachePublishedImmutable (HRes.ok [1]) sysPublished sysSecondDone
      (HRes.ok [1]) reach_sysPublished rfl reach_sysSecondDone).2.2 1
     (HRes.ok [1]) rfl⟩

end PushPop
